import Mathlib

/-
Verification of the hierarchical outline parser, block segmenter,
resume-aware detail driver and slug normalizer of the
Meeting-Summarizer pipeline.

Strings are modelled as lists of characters; the filesystem is an
association list from path to file content; the external inference
collaborator is a parameter returning an Except value (error = a raised
exception).  Every definition is translated from the Python source files
(Sub_Feature_Detailed_Agent.py, Main_Feature_Detailed_Agent.py,
Extract_Sub_Features_Agent.py, summary_agent.py).
-/

set_option maxRecDepth 10000

deriving instance DecidableEq for Except

namespace MeetingSummarizer

/-- Shorthand: a Lean string literal as a list of characters. -/
def str (s : String) : List Char := s.toList

/-- Characters removed by Python str.strip() with no argument. -/
def pyWhitespace : List Char := [' ', '\t', '\n', '\r', '\x0b', '\x0c']

/-- Python str.lstrip(chars): drop members of the set from the front. -/
def lstripChars (set : List Char) (s : List Char) : List Char :=
  s.dropWhile (fun c => decide (c ∈ set))

/-- Python str.rstrip(chars): drop members of the set from the end. -/
def rstripChars (set : List Char) (s : List Char) : List Char :=
  (s.reverse.dropWhile (fun c => decide (c ∈ set))).reverse

/-- Python str.strip(chars). -/
def stripChars (set : List Char) (s : List Char) : List Char :=
  rstripChars set (lstripChars set s)

/-- Python str.strip() (whitespace). -/
def pyStrip (s : List Char) : List Char := stripChars pyWhitespace s

/-- Python line.rstrip of the newline character. -/
def rstripNl (s : List Char) : List Char := rstripChars ['\n'] s

/-- Count of leading space characters:
len(raw) - len(raw.lstrip(" ")) in the source. -/
def leadingSpaces (s : List Char) : Nat := (s.takeWhile (fun c => decide (c = ' '))).length

/-- Python file.readlines(): split after each newline, keeping the
newline at the end of each piece; an empty final piece is not produced. -/
def readLinesGo (cur : List Char) : List Char → List (List Char)
  | [] => if cur.isEmpty then [] else [cur.reverse]
  | c :: rest =>
    if c = '\n' then (cur.reverse ++ ['\n']) :: readLinesGo [] rest
    else readLinesGo (c :: cur) rest

/-- Python file.readlines() on a file whose content is the given text. -/
def readLines (s : List Char) : List (List Char) := readLinesGo [] s

/-- The 26 ASCII uppercase letters with their lowercase forms;
used to embed Python str.lower() on the ASCII range. -/
def upperLowerPairs : List (Char × Char) :=
  [('A','a'),('B','b'),('C','c'),('D','d'),('E','e'),('F','f'),('G','g'),
   ('H','h'),('I','i'),('J','j'),('K','k'),('L','l'),('M','m'),('N','n'),
   ('O','o'),('P','p'),('Q','q'),('R','r'),('S','s'),('T','t'),('U','u'),
   ('V','v'),('W','w'),('X','x'),('Y','y'),('Z','z')]

/-- ASCII lower-casing of one character (Python str.lower on ASCII input). -/
def lowerAscii (c : Char) : Char :=
  match upperLowerPairs.find? (fun p => decide (p.1 = c)) with
  | some p => p.2
  | none => c

/-- The lowercase letters a-z. -/
def lowerChars : List Char := upperLowerPairs.map Prod.snd

/-- The uppercase letters A-Z. -/
def upperChars : List Char := upperLowerPairs.map Prod.fst

/-- The digits 0-9. -/
def digitChars : List Char := ['0','1','2','3','4','5','6','7','8','9']

/-- The character class of the regex [a-zA-Z0-9_-] used by the source in
re.sub(r'[^a-zA-Z0-9_-]', '_', ...). -/
def keepChars : List Char := lowerChars ++ upperChars ++ digitChars ++ ['_', '-']

/-- The character class [a-z0-9_-] named by the spec for slug output. -/
def slugOutChars : List Char := lowerChars ++ digitChars ++ ['_', '-']

/-- Slug normalizer, from the source expression
re.sub(r'[^a-zA-Z0-9_-]', '_', title.lower()):
lower-case the whole string, then replace every character outside the
kept class by an underscore. -/
def slugify (s : List Char) : List Char :=
  (s.map lowerAscii).map (fun c => if c ∈ keepChars then c else '_')

/-! ## Outline parser (Sub_Feature_Detailed_Agent.py, lines 75-91) -/

/-- Test of the regex match re.match(r"^<digits>)", stripped): one or
more decimal digits followed by a closing parenthesis. -/
def matchMain (s : List Char) : Bool :=
  !(s.takeWhile Char.isDigit).isEmpty &&
    decide ((s.dropWhile Char.isDigit).head? = some ')')

/-- stripped.split(")", 1)[1]: everything after the first closing
parenthesis (the parenthesis is guaranteed by matchMain at call sites). -/
def afterFirstParen (s : List Char) : List Char :=
  (s.dropWhile (fun c => decide (c ≠ ')'))).drop 1

/-- stripped.startswith(("-", "–", "•")): the first character is the
ASCII hyphen, the en-dash, or the bullet glyph. -/
def bulletStart (s : List Char) : Bool :=
  match s with
  | [] => false
  | c :: _ => decide (c = '-') || decide (c = '–') || decide (c = '•')

/-- The hierarchy map built by the parser: an insertion-ordered Python
dict from a main-feature title to its list of (indent, text) children. -/
abbrev FeatureMap := List (List Char × List (Nat × List Char))

/-- sub_features_map[main_feature] = [] on a main-feature line: replace
the value of an existing key in place, otherwise append the new key. -/
def dictReset (m : FeatureMap) (k : List Char) : FeatureMap :=
  match m with
  | [] => [(k, [])]
  | (q, v) :: rest => if q = k then (q, []) :: rest else (q, v) :: dictReset rest k

/-- sub_features_map[k].append(x): append to the entry of an existing
key (the key is always present at call sites by construction). -/
def dictAppend (m : FeatureMap) (k : List Char) (x : Nat × List Char) : FeatureMap :=
  match m with
  | [] => []
  | (q, v) :: rest => if q = k then (q, v ++ [x]) :: rest else (q, v) :: dictAppend rest k x

/-- Parser state: the current main feature (the target of child lines)
and the map built so far. -/
structure ParseState where
  cur : Option (List Char)
  feats : FeatureMap
deriving DecidableEq

/-- Trimmed form of a physical line, as the source computes it
(raw = line.rstrip of the newline; stripped = raw.strip()). -/
def lineStripped (line : List Char) : List Char := pyStrip (rstripNl line)

/-- Title of a main-feature line: stripped.split(")", 1)[1].strip(). -/
def titleOfLine (line : List Char) : List Char :=
  pyStrip (afterFirstParen (lineStripped line))

/-- One iteration of the parsing loop (source lines 81-91).  A bullet
line with no current main feature raises KeyError(None); Python's
str() of that exception is the four characters None, which the stage
handler later prefixes with an ERROR tag. -/
def parseLine (st : ParseState) (line : List Char) : Except (List Char) ParseState :=
  if !(lineStripped line).isEmpty && matchMain (lineStripped line) then
    .ok ⟨some (titleOfLine line), dictReset st.feats (titleOfLine line)⟩
  else if bulletStart (lineStripped line) then
    match st.cur with
    | none => .error (str "None")
    | some t =>
      .ok ⟨st.cur, dictAppend st.feats t (leadingSpaces (rstripNl line), lineStripped line)⟩
  else
    .ok st

/-- The parsing loop over a list of physical lines. -/
def parseLinesList : ParseState → List (List Char) → Except (List Char) ParseState
  | st, [] => .ok st
  | st, l :: rest =>
    match parseLine st l with
    | .error e => .error e
    | .ok st2 => parseLinesList st2 rest

/-- The outline parser: readlines, then the classification loop. -/
def parse (content : List Char) : Except (List Char) FeatureMap :=
  (parseLinesList ⟨none, []⟩ (readLines content)).map ParseState.feats

/-! ## Block segmenter (Sub_Feature_Detailed_Agent.py, lines 114-124) -/

/-- A stored child rendered back to a physical line:
" " * indent + sub. -/
def renderLine (p : Nat × List Char) : List Char := List.replicate p.1 ' ' ++ p.2

/-- The new-block test of the source: indent <= 3 and
sub.startswith("-") (only the ASCII hyphen). -/
def segTrigger (p : Nat × List Char) : Bool :=
  decide (p.1 ≤ 3) && decide (p.2.head? = some '-')

/-- The spec's version of the new-block test: indent <= 3 and the same
bullet-pattern test as the parser (hyphen, en-dash or bullet glyph).
Modelled from the spec for comparison with segTrigger. -/
def segTriggerSpec (p : Nat × List Char) : Bool :=
  decide (p.1 ≤ 3) && bulletStart p.2

/-- The segmentation loop: acc holds completed blocks, cur the current
accumulator; blocks are kept as lists of physical lines. -/
def segmentGo (acc : List (List (List Char))) (cur : List (List Char)) :
    List (Nat × List Char) → List (List (List Char))
  | [] => if cur.isEmpty then acc else acc ++ [cur]
  | p :: rest =>
    if segTrigger p && !cur.isEmpty then
      segmentGo (acc ++ [cur]) [renderLine p] rest
    else
      segmentGo acc (cur ++ [renderLine p]) rest

/-- Block segmenter: group a main feature's children into feature
blocks by first-level entries. -/
def segment (children : List (Nat × List Char)) : List (List (List Char)) :=
  segmentGo [] [] children

/-- The segmenter as the spec describes it, with the spec's trigger test.
Modelled from the spec for comparison with segment. -/
def segmentSpecGo (acc : List (List (List Char))) (cur : List (List Char)) :
    List (Nat × List Char) → List (List (List Char))
  | [] => if cur.isEmpty then acc else acc ++ [cur]
  | p :: rest =>
    if segTriggerSpec p && !cur.isEmpty then
      segmentSpecGo (acc ++ [cur]) [renderLine p] rest
    else
      segmentSpecGo acc (cur ++ [renderLine p]) rest

/-- Spec-worded segmenter (bullet-pattern trigger), for refinement
comparison with the source segmenter. -/
def segmentSpec (children : List (Nat × List Char)) : List (List (List Char)) :=
  segmentSpecGo [] [] children

/-- "\n".join(lines). -/
def bodyOf : List (List Char) → List Char
  | [] => []
  | [l] => l
  | l :: rest => l ++ '\n' :: bodyOf rest

/-- Python str.splitlines() for text whose only line breaks are the
newline character: every line loses its terminator, and a trailing
newline does not produce an extra empty line. -/
def splitlines (s : List Char) : List (List Char) := (readLines s).map rstripNl

/-! ## Filesystem model -/

/-- The filesystem under the meeting folder: an association list from
path to file content.  Existence of a path is the resume marker. -/
abbrev FS := List (List Char × List Char)

/-- os.path.exists + read: the content stored at a path, if any. -/
def fsLookup : FS → List Char → Option (List Char)
  | [], _ => none
  | (q, c) :: rest, p => if q = p then some c else fsLookup rest p

/-- open(path, "w"): write a file, overwriting an existing one. -/
def fsWrite : FS → List Char → List Char → FS
  | [], p, c => [(p, c)]
  | (q, d) :: rest, p, c =>
    if q = p then (q, c) :: rest else (q, d) :: fsWrite rest p c

/-! ## Resume-aware detail driver (Sub_Feature_Detailed_Agent.py, lines 129-159) -/

/-- Per-block outcome of the driver. -/
inductive Outcome where
  | written : List Char → Outcome
  | skipped : List Char → Outcome
  | failed : List Char → List Char → Outcome
deriving DecidableEq

/-- block.split("\n", 1)[0].lstrip("-–• ").strip(): the block title is
the first line with leading markers and spaces removed. -/
def blockTitle (b : List (List Char)) : List Char :=
  pyStrip (lstripChars ['-', '–', '•', ' '] (b.headD []))

/-- The derived output path of a block:
os.path.join(main_folder, safe_sub + ".txt"). -/
def blockPath (mainFolder : List Char) (b : List (List Char)) : List Char :=
  mainFolder ++ '/' :: slugify (blockTitle b) ++ str ".txt"

/-- The inference prompt built for one block. -/
def blockPrompt (mainText : List Char) (b : List (List Char)) : List Char :=
  str "Transcript (for this main feature only):\n" ++ mainText ++
    str "\n\nFeature Block:\n" ++ bodyOf b

/-- "=" * n. -/
def eqLine (n : Nat) : List Char := List.replicate n '='

/-- The file content written for one successfully inferred block. -/
def blockFileContent (mainFeature : List Char) (b : List (List Char))
    (details : List Char) : List Char :=
  str "Main Feature: " ++ mainFeature ++ '\n' ::
    (str "Feature Block:\n" ++ bodyOf b ++ '\n' ::
      (eqLine (20 + (blockTitle b).length) ++ str "\n\n" ++ details))

/-- Result of running the driver: per-block outcomes in order, the
final filesystem, and the number of times infer was invoked. -/
structure DriverResult where
  outcomes : List Outcome
  fs : FS
  calls : Nat
deriving DecidableEq

/-- The resume-aware detail driver: for each block in order, skip it
when its output file already exists; otherwise call infer (an error
value is a raised exception, caught locally) and write the file. -/
def processBlocks (mainFolder mainFeature mainText : List Char)
    (infer : List Char → Except (List Char) (List Char)) (fs : FS) :
    List (List (List Char)) → DriverResult
  | [] => ⟨[], fs, 0⟩
  | b :: rest =>
    let path := blockPath mainFolder b
    match fsLookup fs path with
    | some _ =>
      let r := processBlocks mainFolder mainFeature mainText infer fs rest
      ⟨.skipped path :: r.outcomes, r.fs, r.calls⟩
    | none =>
      match infer (blockPrompt mainText b) with
      | .error e =>
        let r := processBlocks mainFolder mainFeature mainText infer fs rest
        ⟨.failed (blockTitle b) e :: r.outcomes, r.fs, r.calls + 1⟩
      | .ok d =>
        let r := processBlocks mainFolder mainFeature mainText infer
          (fsWrite fs path (blockFileContent mainFeature b d)) rest
        ⟨.written path :: r.outcomes, r.fs, r.calls + 1⟩

/-- Count of Written outcomes. -/
def countWritten (l : List Outcome) : Nat :=
  l.countP (fun o => match o with | .written _ => true | _ => false)

/-! ## Sub-feature detail stage (extract_sub_features_details) -/

/-- The per-main-feature loop of the stage (source lines 96-159): skip a
main feature whose transcript file is absent or whose child list is
empty, otherwise segment its children and run the driver. -/
def subDetailsLoop (folder : List Char)
    (infer : List Char → Except (List Char) (List Char)) (fs : FS) :
    FeatureMap → FS
  | [] => fs
  | (mainFeature, children) :: rest =>
    let safe := slugify mainFeature
    let mainFolder := folder ++ '/' :: safe
    match fsLookup fs (mainFolder ++ '/' :: safe ++ str ".txt") with
    | none => subDetailsLoop folder infer fs rest
    | some mtext =>
      if children.isEmpty then subDetailsLoop folder infer fs rest
      else
        subDetailsLoop folder infer
          (processBlocks mainFolder mainFeature mtext infer fs (segment children)).fs rest

/-- The stage extract_sub_features_details: returns the stage result
string and the final filesystem.  The whole body sits in a catch-all
handler; the only uncaught internal exception is the parser's KeyError,
surfaced as an ERROR-prefixed string. -/
def subDetails (folder : List Char)
    (infer : List Char → Except (List Char) (List Char)) (fs : FS) :
    List Char × FS :=
  match fsLookup fs (folder ++ str "/sub_features.txt") with
  | none => (str "[DEBUG] No sub_features.txt found in " ++ folder, fs)
  | some content =>
    match parse content with
    | .error e => (str "[ERROR] " ++ e, fs)
    | .ok feats =>
      (str "Detailed sub-feature files created inside " ++ folder ++
         str "/<main_feature> folders",
       subDetailsLoop folder infer fs feats)

/-! ## Main-feature detail stage (Main_Feature_Detailed_Agent.py) -/

/-- A record of the external transcript store (database.json). -/
structure Meeting where
  filepath : List Char
  title : List Char
  text : List Char
deriving DecidableEq

/-- next((m for m in db_data if m.get("filepath") == file_path), None). -/
def findMeetingByPath (ms : List Meeting) (fp : List Char) : Option Meeting :=
  ms.find? (fun m => decide (m.filepath = fp))

/-- main_features.txt parsing shared by two stages: keep the lines
starting with "- " and strip "- " characters and whitespace from both
ends (readlines keeps the newline, so the strip of hyphen and space
stops at it; the final strip removes it). -/
def parseMainFeatures (content : List Char) : List (List Char) :=
  ((readLines content).filter (fun l => (str "- ").isPrefixOf l)).map
    (fun l => pyStrip (stripChars ['-', ' '] l))

/-- The detail file content written per main feature. -/
def mainFeatureContent (feature details : List Char) : List Char :=
  str "Main Feature: " ++ feature ++ '\n' ::
    (eqLine (15 + feature.length) ++ str "\n\n" ++ details)

/-- The per-feature loop of extract_main_features_details (source lines
94-115): no existence check — the detail file is written unconditionally.
An inference exception aborts the loop (it is only caught by the
stage-level handler); files already written remain. -/
def mainDetailsLoop (folder transcript : List Char)
    (infer : List Char → Except (List Char) (List Char)) (fs : FS) :
    List (List Char) → FS × Option (List Char)
  | [] => (fs, none)
  | feature :: rest =>
    let safe := slugify feature
    let path := folder ++ '/' :: safe ++ '/' :: safe ++ str ".txt"
    match infer (str "Transcript:\n" ++ transcript ++ str "\n\nMain Feature:\n" ++ feature) with
    | .error e => (fs, some e)
    | .ok d =>
      mainDetailsLoop folder transcript infer
        (fsWrite fs path (mainFeatureContent feature d)) rest

/-- The stage extract_main_features_details.  The database read is
passed as an Except value: an error is the exception message raised by
the open/json.load, which the catch-all turns into an ERROR string. -/
def mainDetails (folder : List Char) (db : Except (List Char) (List Meeting))
    (filePath : List Char) (infer : List Char → Except (List Char) (List Char))
    (fs : FS) : List Char × FS :=
  match db with
  | .error e => (str "[ERROR] " ++ e, fs)
  | .ok ms =>
    match findMeetingByPath ms filePath with
    | none => (str "[DEBUG] No meeting found for file path: " ++ filePath, fs)
    | some m =>
      if m.text.isEmpty then
        (str "[DEBUG] Meeting at '" ++ filePath ++ str "' has no transcript text.", fs)
      else
        match fsLookup fs (folder ++ str "/main_features.txt") with
        | none => (str "[DEBUG] No main_features.txt found in " ++ folder, fs)
        | some content =>
          match mainDetailsLoop folder m.text infer fs (parseMainFeatures content) with
          | (fs2, none) =>
            (str "Detailed feature files created inside " ++ folder ++
               str "/<feature_name> folders", fs2)
          | (fs2, some e) => (str "[ERROR] " ++ e, fs2)

/-! ## Sub-feature extraction stage (Extract_Sub_Features_Agent.py) -/

/-- Python substring test: needle in hay. -/
def strContains (needle : List Char) : List Char → Bool
  | [] => needle.isEmpty
  | c :: rest => needle.isPrefixOf (c :: rest) || strContains needle rest

/-- Decimal digits of a number, for the f-string idx rendering. -/
def natChars (n : Nat) : List Char := Nat.toDigits 10 n

/-- The per-feature transcript file path:
os.path.join(folder_name, safe_feature, safe_feature + ".txt"). -/
def featurePath (folder feature : List Char) : List Char :=
  folder ++ '/' :: slugify feature ++ '/' :: slugify feature ++ str ".txt"

/-- The prompt built by extract_sub_features for one main feature. -/
def subExtractPrompt (ftext : List Char) (idx : Nat) (feature : List Char) : List Char :=
  str "Transcript (related to this feature only):\n" ++ ftext ++
    str "\n\nMain Feature to expand: " ++ natChars idx ++ str ") " ++ feature ++
    str "\n\nExtract ONLY the sub-features of this feature in proper hierarchical format."

/-- The per-feature loop of extract_sub_features (source lines 103-144):
a feature whose title occurs in the pre-read sub_features.txt content is
skipped as completed; a feature with no transcript file is skipped; an
inference exception aborts the loop keeping earlier appends.  Returns
the text appended to sub_features.txt, the number of infer calls, and
the uncaught exception if any. -/
def subExtractLoop (folder content : List Char)
    (infer : List Char → Except (List Char) (List (List Char))) (fs : FS)
    (idx : Nat) : List (List Char) → List Char × Nat × Option (List Char)
  | [] => ([], 0, none)
  | feature :: rest =>
    if strContains feature content then
      subExtractLoop folder content infer fs (idx + 1) rest
    else
      match fsLookup fs (featurePath folder feature) with
      | none => subExtractLoop folder content infer fs (idx + 1) rest
      | some ftext =>
        match infer (subExtractPrompt ftext idx feature) with
        | .error e => ([], 1, some e)
        | .ok feats =>
          let chunk :=
            if feats.isEmpty then natChars idx ++ str ") " ++ feature ++ str "\n\n"
            else bodyOf feats ++ str "\n\n"
          let r := subExtractLoop folder content infer fs (idx + 1) rest
          (chunk ++ r.1, r.2.1 + 1, r.2.2)

/-- The stage extract_sub_features: returns the stage result string, the
final filesystem and the number of infer calls.  The completed-feature
check is a substring test of the title against the existing
sub_features.txt content. -/
def subExtract (folder : List Char)
    (infer : List Char → Except (List Char) (List (List Char))) (fs : FS) :
    List Char × FS × Nat :=
  match fsLookup fs (folder ++ str "/main_features.txt") with
  | none => (str "[DEBUG] No main_features.txt found in " ++ folder, fs, 0)
  | some mcontent =>
    let features := parseMainFeatures mcontent
    let sfPath := folder ++ str "/sub_features.txt"
    let existing := (fsLookup fs sfPath).getD []
    let base :=
      if existing.isEmpty then str "Extracted Hierarchical Features:\n\n" else existing
    match subExtractLoop folder existing infer fs 1 features with
    | (app, calls, none) =>
      (str "Hierarchical sub-features extracted and saved in " ++ sfPath,
       fsWrite fs sfPath (base ++ app), calls)
    | (app, calls, some e) =>
      (str "[ERROR] " ++ e, fsWrite fs sfPath (base ++ app), calls)

/-! ## Summary stage (summary_agent.py) -/

/-- The two exception types the summary stage catches. -/
inductive DbError where
  | fileNotFound
  | jsonDecode
deriving DecidableEq

/-- meeting_name.replace(" ", "_") + "_summary.txt". -/
def summaryFileName (meetingName : List Char) : List Char :=
  (meetingName.map (fun c => if c = ' ' then '_' else c)) ++ str "_summary.txt"

/-- The summary file content. -/
def summaryContent (meetingName summary : List Char) : List Char :=
  str "Meeting: " ++ meetingName ++ '\n' ::
    (eqLine (9 + meetingName.length) ++ str "\n\n" ++ summary)

/-- The stage generate_meeting_summary.  Its handlers catch only
FileNotFoundError and JSONDecodeError from the database read; an
exception raised by the inference call is NOT caught and propagates to
the caller, modelled by the Except error result. -/
def genSummary (db : Except DbError (List Meeting)) (meetingName : List Char)
    (infer : List Char → Except (List Char) (List Char)) (fs : FS) :
    Except (List Char) (List Char × FS) :=
  match db with
  | .error .fileNotFound => .ok (str "[ERROR] Database file not found.", fs)
  | .error .jsonDecode => .ok (str "[ERROR] Error decoding database JSON.", fs)
  | .ok ms =>
    match ms.find? (fun m => decide (m.title = meetingName)) with
    | none => .ok (str "[DEBUG] Meeting '" ++ meetingName ++ str "' not found.", fs)
    | some m =>
      if m.text.isEmpty then
        .ok (str "[DEBUG] Meeting '" ++ meetingName ++
               str "' has no transcript text to summarize.", fs)
      else
        match infer m.text with
        | .error e => .error e
        | .ok summary =>
          .ok (str "\n\nSummary for meeting '" ++ meetingName ++
                 str "' saved in database.json and " ++ summaryFileName meetingName,
               fsWrite fs (summaryFileName meetingName)
                 (summaryContent meetingName summary))

/-! ## Proofs -/

lemma lowerAscii_not_upper (c : Char) : lowerAscii c ∉ upperChars := by
  unfold lowerAscii
  cases hf : upperLowerPairs.find? (fun p => decide (p.1 = c)) with
  | some p =>
    have hp : p ∈ upperLowerPairs := List.mem_of_find?_eq_some hf
    have : ∀ q ∈ upperLowerPairs, q.2 ∉ upperChars := by decide
    simpa using this p hp
  | none =>
    intro hc
    have hall := List.find?_eq_none.mp hf
    rcases List.mem_map.mp hc with ⟨q, hq, hqc⟩
    have := hall q hq
    simp [hqc] at this

lemma slugify_char_mem (c : Char) :
    (if lowerAscii c ∈ keepChars then lowerAscii c else '_') ∈ slugOutChars := by
  by_cases h : lowerAscii c ∈ keepChars
  · have hnu := lowerAscii_not_upper c
    rw [if_pos h]
    have hmem := h
    unfold keepChars at hmem
    unfold slugOutChars
    rcases List.mem_append.mp hmem with h1 | h2
    · rcases List.mem_append.mp h1 with h3 | h4
      · rcases List.mem_append.mp h3 with h5 | h6
        · exact List.mem_append.mpr (Or.inl (List.mem_append.mpr (Or.inl h5)))
        · exact absurd h6 hnu
      · exact List.mem_append.mpr (Or.inl (List.mem_append.mpr (Or.inr h4)))
    · exact List.mem_append.mpr (Or.inr h2)
  · rw [if_neg h]
    decide

/-- C6: slugify is a pure total function: it lower-cases its input and
replaces every character outside [a-z0-9_-] with an underscore; it is
deterministic, case-insensitive (slugify "API" = slugify "api"), and not
injective ("API!" and "API?" both map to "api_"). -/
theorem slugify_spec :
    (∀ x : List Char, slugify x = slugify x) ∧
    slugify (str "API") = slugify (str "api") ∧
    slugify (str "API!") = str "api_" ∧
    slugify (str "API?") = str "api_" ∧
    str "API!" ≠ str "API?" ∧
    (∀ x : List Char, (slugify x).all (fun c => decide (c ∈ slugOutChars)) = true) := by
  refine ⟨fun x => rfl, by decide, by decide, by decide, by decide, ?_⟩
  intro x
  unfold slugify
  rw [List.map_map, List.all_eq_true]
  intro c hc
  rcases List.mem_map.mp hc with ⟨a, _, rfl⟩
  simpa using slugify_char_mem a

lemma matchMain_cons_nondigit {c : Char} {rest : List Char} (h : c.isDigit = false) :
    matchMain (c :: rest) = false := by
  unfold matchMain
  simp [List.takeWhile, List.dropWhile, h]

lemma bullet_not_main {s : List Char} (h : bulletStart s = true) : matchMain s = false := by
  cases s with
  | nil => simp [bulletStart] at h
  | cons c rest =>
    have hc : c = '-' ∨ c = '–' ∨ c = '•' := by
      simp [bulletStart] at h
      tauto
    rcases hc with rfl | rfl | rfl <;> exact matchMain_cons_nondigit (by decide)

/-- C5: the parser classifies each line after trimming: a main-feature
line (digits then a closing parenthesis) starts a new node whose title
is the remainder after the first parenthesis, trimmed; a bullet line is
appended to the current node's children with indentLevel equal to the
leading-space count of the untrimmed line; a key never seen before is
appended at the end of the map, so nodes appear in encounter order.  In
particular the four-feature example parses to two nodes in order, the
first with children at indents 0 and 2, the second with one child. -/
theorem parse_classification :
    (∀ (st : ParseState) (line : List Char),
       lineStripped line ≠ [] → matchMain (lineStripped line) = true →
       parseLine st line =
         .ok ⟨some (titleOfLine line), dictReset st.feats (titleOfLine line)⟩) ∧
    (∀ (st : ParseState) (line : List Char) (t : List Char),
       st.cur = some t → bulletStart (lineStripped line) = true →
       parseLine st line =
         .ok ⟨some t, dictAppend st.feats t (leadingSpaces (rstripNl line), lineStripped line)⟩) ∧
    (∀ (m : FeatureMap) (k : List Char),
       k ∉ m.map Prod.fst → dictReset m k = m ++ [(k, [])]) ∧
    parse (str "1) Auth\n- login\n  -- oauth\n2) Billing\n- invoice\n") =
      .ok [(str "Auth", [(0, str "- login"), (2, str "-- oauth")]),
           (str "Billing", [(0, str "- invoice")])] := by
  refine ⟨?_, ?_, ?_, by decide⟩
  · intro st line h1 h2
    have hcond : (!(lineStripped line).isEmpty && matchMain (lineStripped line)) = true := by
      rw [h2, Bool.and_true]
      cases hs : lineStripped line with
      | nil => exact absurd hs h1
      | cons a l => rfl
    unfold parseLine
    rw [if_pos hcond]
  · intro st line t hcur hb
    have hm : matchMain (lineStripped line) = false := bullet_not_main hb
    unfold parseLine
    rw [if_neg (by rw [hm, Bool.and_false]; exact Bool.false_ne_true), if_pos hb, hcur]
  · intro m k
    induction m with
    | nil => intro _; rfl
    | cons p rest ih =>
      intro hk
      obtain ⟨q, v⟩ := p
      have h1 : q ≠ k := by
        intro h
        exact hk (by rw [h]; exact List.mem_cons_self _ _)
      have h2 : k ∉ rest.map Prod.fst := fun h => hk (List.mem_cons_of_mem _ h)
      simp only [dictReset]
      rw [if_neg h1, ih h2]
      rfl

theorem parse_classification_witness :
    parseLine ⟨none, []⟩ (str "1) Auth") =
      .ok ⟨some (str "Auth"), [(str "Auth", [])]⟩ ∧
    parseLine ⟨some (str "Auth"), [(str "Auth", [])]⟩ (str "- login") =
      .ok ⟨some (str "Auth"), [(str "Auth", [(0, str "- login")])]⟩ ∧
    dictReset [] (str "A") = [] ++ [(str "A", [])] :=
  ⟨(parse_classification.1 ⟨none, []⟩ (str "1) Auth") (by decide) (by decide)).trans
     (by decide),
   (parse_classification.2.1 ⟨some (str "Auth"), [(str "Auth", [])]⟩ (str "- login")
       (str "Auth") rfl (by decide)).trans (by decide),
   parse_classification.2.2.1 [] (str "A") (by decide)⟩

/-- C7 counterexample: a bullet line before any main-feature line is not
dropped; the parser raises KeyError(None) instead, so the parse of
"- orphan\n1) A\n" errors while the parse without the leading bullet
line succeeds — the two results differ. -/
theorem parse_orphan_counterexample :
    parse (str "- orphan\n1) A\n") = .error (str "None") ∧
    parse (str "1) A\n") = .ok [(str "A", [])] ∧
    parse (str "- orphan\n1) A\n") ≠ parse (str "1) A\n") :=
  ⟨by decide, by decide, by decide⟩

/-- C7 amended: a bullet line encountered before any main-feature line
raises KeyError on sub_features_map[None] (Python str of the exception
is None), aborting the parse of all remaining lines; the stage-level
catch-all turns it into an ERROR-prefixed result string.  The line is
not silently dropped. -/
theorem parse_orphan_raises :
    (∀ (line : List Char) (rest : List (List Char)),
       bulletStart (lineStripped line) = true →
       parseLinesList ⟨none, []⟩ (line :: rest) = .error (str "None")) ∧
    (subDetails (str "m") (fun _ => Except.ok [])
        [((str "m/sub_features.txt"), str "- orphan\n1) A\n")]).1 =
      str "[ERROR] " ++ str "None" := by
  constructor
  · intro line rest hb
    have hm : matchMain (lineStripped line) = false := bullet_not_main hb
    have hl : parseLine ⟨none, []⟩ line = .error (str "None") := by
      unfold parseLine
      rw [if_neg (by rw [hm, Bool.and_false]; exact Bool.false_ne_true), if_pos hb]
    unfold parseLinesList
    rw [hl]
  · decide

theorem parse_orphan_raises_witness :
    parseLinesList ⟨none, []⟩ [str "- x"] = .error (str "None") :=
  parse_orphan_raises.1 (str "- x") [] (by decide)

lemma segmentGo_join (cs : List (Nat × List Char)) :
    ∀ acc cur, (segmentGo acc cur cs).join = acc.join ++ cur ++ cs.map renderLine := by
  induction cs with
  | nil =>
    intro acc cur
    cases cur with
    | nil => simp [segmentGo]
    | cons a l => simp [segmentGo]
  | cons p rest ih =>
    intro acc cur
    simp only [segmentGo]
    by_cases h : (segTrigger p && !cur.isEmpty) = true
    · rw [if_pos h, ih]
      simp [List.append_assoc]
    · rw [if_neg h, ih]
      simp [List.append_assoc]

lemma segmentGo_sum (cs : List (Nat × List Char)) :
    ∀ acc cur, ((segmentGo acc cur cs).map List.length).sum =
      (acc.map List.length).sum + cur.length + cs.length := by
  induction cs with
  | nil =>
    intro acc cur
    cases cur with
    | nil => simp [segmentGo]
    | cons a l => simp [segmentGo]
  | cons p rest ih =>
    intro acc cur
    simp only [segmentGo]
    by_cases h : (segTrigger p && !cur.isEmpty) = true
    · rw [if_pos h, ih]
      simp
      omega
    · rw [if_neg h, ih]
      simp
      omega

lemma isEmpty_false_ne_nil {α : Type} {l : List α} (h : l.isEmpty = false) : l ≠ [] := by
  cases l with
  | nil => simp at h
  | cons a t => exact fun hx => List.noConfusion hx

lemma segmentGo_ne_nil (cs : List (Nat × List Char)) :
    ∀ acc cur, (∀ b ∈ acc, b ≠ []) → ∀ b ∈ segmentGo acc cur cs, b ≠ [] := by
  induction cs with
  | nil =>
    intro acc cur hacc b hb
    cases hcur : cur.isEmpty with
    | true => rw [segmentGo, if_pos hcur] at hb; exact hacc b hb
    | false =>
      rw [segmentGo, if_neg (by rw [hcur]; exact Bool.false_ne_true)] at hb
      rcases List.mem_append.mp hb with h | h
      · exact hacc b h
      · rw [List.mem_singleton.mp h]
        exact isEmpty_false_ne_nil hcur
  | cons p rest ih =>
    intro acc cur hacc b hb
    simp only [segmentGo] at hb
    by_cases h : (segTrigger p && !cur.isEmpty) = true
    · rw [if_pos h] at hb
      refine ih _ _ ?_ b hb
      intro x hx
      rcases List.mem_append.mp hx with hx | hx
      · exact hacc x hx
      · rw [List.mem_singleton.mp hx]
        have hcur : cur.isEmpty = false := by
          rw [Bool.and_eq_true] at h
          obtain ⟨_, h2⟩ := h
          cases hc : cur.isEmpty with
          | false => rfl
          | true => rw [hc] at h2; exact absurd h2 (by decide)
        exact isEmpty_false_ne_nil hcur
    · rw [if_neg h] at hb
      exact ih _ _ hacc b hb

lemma dropWhile_false_of_all {p : Char → Bool} :
    ∀ {l : List Char}, (∀ c ∈ l, p c = false) → l.dropWhile p = l := by
  intro l h
  induction l with
  | nil => rfl
  | cons c t _ => simp [List.dropWhile, h c (List.mem_cons_self c t)]

lemma rstripNl_nonl {l : List Char} (h : '\n' ∉ l) : rstripNl l = l := by
  unfold rstripNl rstripChars
  rw [dropWhile_false_of_all, List.reverse_reverse]
  intro c hc
  have : c ≠ '\n' := fun hx => h (hx ▸ List.mem_reverse.mp hc)
  simp [this]

lemma rstripNl_append_nl {l : List Char} (h : '\n' ∉ l) : rstripNl (l ++ ['\n']) = l := by
  unfold rstripNl rstripChars
  rw [List.reverse_append]
  have : (['\n'].reverse : List Char) ++ l.reverse = '\n' :: l.reverse := rfl
  rw [this, List.dropWhile_cons, if_pos (by decide), dropWhile_false_of_all,
    List.reverse_reverse]
  intro c hc
  have : c ≠ '\n' := fun hx => h (hx ▸ List.mem_reverse.mp hc)
  simp [this]

lemma readLinesGo_append_nonl {l : List Char} (h : '\n' ∉ l) :
    ∀ cur s, readLinesGo cur (l ++ s) = readLinesGo (l.reverse ++ cur) s := by
  induction l with
  | nil => intro cur s; rfl
  | cons c t ih =>
    intro cur s
    have hc : c ≠ '\n' := fun hx => h (hx ▸ List.mem_cons_self c t)
    have ht : '\n' ∉ t := fun hm => h (List.mem_cons_of_mem c hm)
    show readLinesGo cur (c :: (t ++ s)) = _
    rw [readLinesGo, if_neg hc, ih ht (c :: cur) s]
    congr 1
    simp

lemma readLines_append_line {l : List Char} (h : '\n' ∉ l) (s : List Char) :
    readLines (l ++ '\n' :: s) = (l ++ ['\n']) :: readLines s := by
  unfold readLines
  rw [readLinesGo_append_nonl h [] ('\n' :: s)]
  rw [readLinesGo, if_pos rfl]
  congr 1
  simp

lemma readLines_nonl {l : List Char} (h : '\n' ∉ l) (hne : l ≠ []) :
    readLines l = [l] := by
  unfold readLines
  conv_lhs => rw [show l = l ++ [] from (List.append_nil l).symm]
  rw [readLinesGo_append_nonl h [] [], readLinesGo]
  rw [List.append_nil]
  have : l.reverse.isEmpty = false := by
    cases hl : l.reverse with
    | nil => exact absurd (List.reverse_eq_nil_iff.mp hl) hne
    | cons a t => rfl
  rw [if_neg (by rw [this]; exact Bool.false_ne_true), List.reverse_reverse]

lemma splitlines_bodyOf :
    ∀ {b : List (List Char)}, b ≠ [] → (∀ l ∈ b, l ≠ [] ∧ '\n' ∉ l) →
      splitlines (bodyOf b) = b := by
  intro b
  induction b with
  | nil => intro h _; exact absurd rfl h
  | cons l rest ih =>
    intro _ hall
    obtain ⟨h1, h2⟩ := hall l (List.mem_cons_self _ _)
    cases rest with
    | nil =>
      show (readLines (bodyOf [l])).map rstripNl = [l]
      rw [show bodyOf [l] = l from rfl, readLines_nonl h2 h1]
      simp [rstripNl_nonl h2]
    | cons m rest2 =>
      show (readLines (bodyOf (l :: m :: rest2))).map rstripNl = l :: m :: rest2
      rw [show bodyOf (l :: m :: rest2) = l ++ '\n' :: bodyOf (m :: rest2) from rfl]
      rw [readLines_append_line h2]
      rw [List.map_cons, rstripNl_append_nl h2]
      congr 1
      exact ih (by simp) (fun x hx => hall x (List.mem_cons_of_mem _ hx))

/-- C2: the block segmenter is a lossless partition: the sum over all
blocks of the line count of the block's body equals the number of
children, and the blocks' lines, concatenated in order, are exactly the
children rendered back with their original indentation. -/
theorem segment_lossless (cs : List (Nat × List Char))
    (h : ∀ p ∈ cs, p.2 ≠ [] ∧ '\n' ∉ p.2) :
    ((segment cs).map (fun b => (splitlines (bodyOf b)).length)).sum = cs.length ∧
    (segment cs).join = cs.map renderLine := by
  have hjoin : (segment cs).join = cs.map renderLine := by
    unfold segment
    rw [segmentGo_join]
    simp
  refine ⟨?_, hjoin⟩
  have hb : ∀ b ∈ segment cs, splitlines (bodyOf b) = b := by
    intro b hbm
    refine splitlines_bodyOf (segmentGo_ne_nil cs [] [] (by simp) b hbm) ?_
    intro l hl
    have hlj : l ∈ (segment cs).join := List.mem_join.mpr ⟨b, hbm, hl⟩
    rw [hjoin] at hlj
    rcases List.mem_map.mp hlj with ⟨p, hp, rfl⟩
    obtain ⟨hp1, hp2⟩ := h p hp
    constructor
    · simp [renderLine, hp1]
    · intro hmem
      rcases List.mem_append.mp hmem with hm | hm
      · exact absurd (List.eq_of_mem_replicate hm) (by decide)
      · exact hp2 hm
  have hmapeq : (segment cs).map (fun b => (splitlines (bodyOf b)).length) =
      (segment cs).map List.length := by
    apply List.map_eq_map_iff.mpr
    intro b hbm
    rw [hb b hbm]
  rw [hmapeq]
  unfold segment
  rw [segmentGo_sum cs [] []]
  simp

theorem segment_lossless_witness :
    ((segment [(0, str "- a"), (2, str "-- b"), (0, str "- c")]).map
        (fun b => (splitlines (bodyOf b)).length)).sum = 3 ∧
    (segment [(0, str "- a"), (2, str "-- b"), (0, str "- c")]).join =
      [(0, str "- a"), (2, str "-- b"), (0, str "- c")].map renderLine :=
  segment_lossless [(0, str "- a"), (2, str "-- b"), (0, str "- c")] (by decide)

/-- C4 counterexample: a child at indent 0 whose text begins with an
en-dash passes the spec's bullet-pattern trigger but does not start a
new block in the source segmenter: [(0, "- a"), (0, "– b")] yields one
block, while the spec-worded segmenter yields two. -/
theorem segment_bullet_pattern_counterexample :
    segment [(0, str "- a"), (0, str "– b")] = [[str "- a", str "– b"]] ∧
    segTriggerSpec (0, str "– b") = true ∧
    segmentSpec [(0, str "- a"), (0, str "– b")] = [[str "- a"], [str "– b"]] ∧
    segment [(0, str "- a"), (0, str "– b")] ≠
      segmentSpec [(0, str "- a"), (0, str "– b")] :=
  ⟨by decide, by decide, by decide, by decide⟩

/-- C4 amended: a line starts a new block iff its indentLevel is <= 3
AND its stored text starts with the ASCII hyphen; lines whose text
begins with an en-dash or a bullet glyph never trigger a new block.
The block count is the number of trigger lines, plus one for a leading
run of non-trigger lines. -/
theorem segment_trigger_characterization :
    (∀ cs : List (Nat × List Char),
       (segment cs).length = cs.countP segTrigger +
         (match cs with
          | [] => 0
          | p :: _ => if segTrigger p then 0 else 1)) ∧
    (∀ (i : Nat) (s : List Char), i ≤ 3 → segTrigger (i, '-' :: s) = true) ∧
    (∀ (i : Nat) (c : Char) (s : List Char), segTrigger (i, c :: s) = true → c = '-') := by
  refine ⟨?_, ?_, ?_⟩
  · have main : ∀ (cs : List (Nat × List Char)) (acc : List (List (List Char)))
        (cur : List (List Char)),
        (segmentGo acc cur cs).length = acc.length + cs.countP segTrigger +
          (if cur.isEmpty then
             (match cs with
              | [] => 0
              | p :: _ => if segTrigger p then 0 else 1)
           else 1) := by
      intro cs
      induction cs with
      | nil =>
        intro acc cur
        cases cur with
        | nil => simp [segmentGo]
        | cons a l => simp [segmentGo]
      | cons p rest ih =>
        intro acc cur
        cases cur with
        | nil =>
          rw [show segmentGo acc [] (p :: rest) =
                segmentGo acc ([] ++ [renderLine p]) rest by
              simp only [segmentGo]
              rw [if_neg (by simp)]]
          rw [ih]
          by_cases ht : segTrigger p = true
          · simp [List.countP_cons, ht]
            omega
          · simp only [Bool.not_eq_true] at ht
            simp [List.countP_cons, ht]
        | cons a l =>
          by_cases ht : segTrigger p = true
          · rw [show segmentGo acc (a :: l) (p :: rest) =
                  segmentGo (acc ++ [a :: l]) [renderLine p] rest by
                simp only [segmentGo]
                rw [if_pos (by rw [ht]; rfl)]]
            rw [ih]
            simp [List.countP_cons, ht]
            omega
          · simp only [Bool.not_eq_true] at ht
            rw [show segmentGo acc (a :: l) (p :: rest) =
                  segmentGo acc ((a :: l) ++ [renderLine p]) rest by
                simp only [segmentGo]
                rw [if_neg (by rw [ht]; exact Bool.false_ne_true)]]
            rw [ih]
            simp [List.countP_cons, ht]
    intro cs
    have := main cs [] []
    unfold segment
    rw [this]
    simp
  · intro i s hi
    simp [segTrigger, hi]
  · intro i c s ht
    unfold segTrigger at ht
    rw [Bool.and_eq_true] at ht
    obtain ⟨_, h2⟩ := ht
    have := of_decide_eq_true h2
    simp only [List.head?] at this
    exact Option.some.inj this

theorem segment_trigger_characterization_witness :
    segTrigger (0, '-' :: str "x") = true ∧ ('-' : Char) = '-' :=
  ⟨segment_trigger_characterization.2.1 0 (str "x") (by decide),
   segment_trigger_characterization.2.2 0 '-' (str "y")
     (segment_trigger_characterization.2.1 0 (str "y") (by decide))⟩

lemma fsLookup_fsWrite_self (fs : FS) (p c : List Char) :
    fsLookup (fsWrite fs p c) p = some c := by
  induction fs with
  | nil => simp [fsWrite, fsLookup]
  | cons qd rest ih =>
    obtain ⟨q, d⟩ := qd
    by_cases h : q = p
    · simp [fsWrite, fsLookup, h]
    · simp only [fsWrite, if_neg h, fsLookup]
      exact ih

lemma fsLookup_fsWrite_ne (fs : FS) {p q : List Char} (c : List Char) (h : q ≠ p) :
    fsLookup (fsWrite fs q c) p = fsLookup fs p := by
  induction fs with
  | nil => simp [fsWrite, fsLookup, h]
  | cons rd rest ih =>
    obtain ⟨r, d⟩ := rd
    by_cases h2 : r = q
    · subst h2
      simp only [fsWrite, if_pos rfl, fsLookup]
      rw [if_neg h, if_neg h]
    · simp only [fsWrite, if_neg h2, fsLookup]
      by_cases h3 : r = p
      · rw [if_pos h3, if_pos h3]
      · rw [if_neg h3, if_neg h3]
        exact ih

lemma fsLookup_fsWrite_isSome (fs : FS) (p q c : List Char)
    (h : (fsLookup fs p).isSome = true) :
    (fsLookup (fsWrite fs q c) p).isSome = true := by
  by_cases hq : q = p
  · subst hq
    rw [fsLookup_fsWrite_self]
    rfl
  · rw [fsLookup_fsWrite_ne fs c hq]
    exact h

lemma processBlocks_preserves (mf mft mt : List Char)
    (infer : List Char → Except (List Char) (List Char)) :
    ∀ (blocks : List (List (List Char))) (fs : FS) (p : List Char),
      (fsLookup fs p).isSome = true →
      (fsLookup (processBlocks mf mft mt infer fs blocks).fs p).isSome = true := by
  intro blocks
  induction blocks with
  | nil => intro fs p h; exact h
  | cons b rest ih =>
    intro fs p h
    simp only [processBlocks]
    cases hl : fsLookup fs (blockPath mf b) with
    | some c => exact ih fs p h
    | none =>
      cases hi : infer (blockPrompt mt b) with
      | error e => exact ih fs p h
      | ok d => exact ih _ p (fsLookup_fsWrite_isSome _ _ _ _ h)

lemma processBlocks_creates (mf mft mt : List Char)
    (infer : List Char → Except (List Char) (List Char))
    (hok : ∀ p, ∃ d, infer p = Except.ok d) :
    ∀ (blocks : List (List (List Char))) (fs : FS), ∀ b ∈ blocks,
      (fsLookup (processBlocks mf mft mt infer fs blocks).fs (blockPath mf b)).isSome =
        true := by
  intro blocks
  induction blocks with
  | nil => intro fs b hb; exact absurd hb (List.not_mem_nil b)
  | cons b0 rest ih =>
    intro fs b hb
    simp only [processBlocks]
    cases hl : fsLookup fs (blockPath mf b0) with
    | some c =>
      rcases List.mem_cons.mp hb with rfl | hb2
      · exact processBlocks_preserves mf mft mt infer rest fs _ (by rw [hl]; rfl)
      · exact ih fs b hb2
    | none =>
      cases hi : infer (blockPrompt mt b0) with
      | error e =>
        obtain ⟨d, hd⟩ := hok (blockPrompt mt b0)
        rw [hi] at hd
        cases hd
      | ok d =>
        rcases List.mem_cons.mp hb with rfl | hb2
        · exact processBlocks_preserves mf mft mt infer rest _ _
            (by rw [fsLookup_fsWrite_self]; rfl)
        · exact ih _ b hb2

lemma processBlocks_all_skipped (mf mft mt : List Char)
    (infer : List Char → Except (List Char) (List Char)) :
    ∀ (blocks : List (List (List Char))) (fs : FS),
      (∀ b ∈ blocks, (fsLookup fs (blockPath mf b)).isSome = true) →
      processBlocks mf mft mt infer fs blocks =
        ⟨blocks.map (fun b => Outcome.skipped (blockPath mf b)), fs, 0⟩ := by
  intro blocks
  induction blocks with
  | nil => intro fs _; rfl
  | cons b rest ih =>
    intro fs h
    have hb := h b (List.mem_cons_self b rest)
    simp only [processBlocks]
    cases hl : fsLookup fs (blockPath mf b) with
    | none => rw [hl] at hb; exact absurd hb (by decide)
    | some c =>
      rw [ih fs (fun x hx => h x (List.mem_cons_of_mem b hx))]
      rfl

lemma countWritten_skipped (f : List (List Char) → List Char)
    (l : List (List (List Char))) :
    countWritten (l.map (fun b => Outcome.skipped (f b))) = 0 := by
  induction l with
  | nil => rfl
  | cons a t ih =>
    simp only [List.map_cons, countWritten, List.countP_cons] at *
    simp [ih]

/-- C1: if infer never raises, running the resume-aware detail driver a
second time over the same blocks, starting from the filesystem produced
by the first run (no files removed), calls infer zero times, produces
zero Written outcomes, and skips every block because its output file
exists at its derived path. -/
theorem driver_idempotent_resume (mf mft mt : List Char)
    (infer : List Char → Except (List Char) (List Char)) (fs : FS)
    (blocks : List (List (List Char)))
    (hok : ∀ p, ∃ d, infer p = Except.ok d) :
    (processBlocks mf mft mt infer
        (processBlocks mf mft mt infer fs blocks).fs blocks).calls = 0 ∧
    countWritten (processBlocks mf mft mt infer
        (processBlocks mf mft mt infer fs blocks).fs blocks).outcomes = 0 ∧
    processBlocks mf mft mt infer (processBlocks mf mft mt infer fs blocks).fs blocks =
      ⟨blocks.map (fun b => Outcome.skipped (blockPath mf b)),
       (processBlocks mf mft mt infer fs blocks).fs, 0⟩ := by
  have hall : ∀ b ∈ blocks,
      (fsLookup (processBlocks mf mft mt infer fs blocks).fs (blockPath mf b)).isSome =
        true :=
    fun b hb => processBlocks_creates mf mft mt infer hok blocks fs b hb
  have h2 := processBlocks_all_skipped mf mft mt infer blocks _ hall
  refine ⟨by rw [h2], ?_, h2⟩
  rw [h2]
  exact countWritten_skipped _ blocks

theorem driver_idempotent_resume_witness :
    (processBlocks (str "m") (str "MF") (str "t") (fun _ => Except.ok (str "d"))
        (processBlocks (str "m") (str "MF") (str "t") (fun _ => Except.ok (str "d")) []
          [[str "- alpha"], [str "- beta"]]).fs
        [[str "- alpha"], [str "- beta"]]).calls = 0 ∧
    countWritten (processBlocks (str "m") (str "MF") (str "t")
        (fun _ => Except.ok (str "d"))
        (processBlocks (str "m") (str "MF") (str "t") (fun _ => Except.ok (str "d")) []
          [[str "- alpha"], [str "- beta"]]).fs
        [[str "- alpha"], [str "- beta"]]).outcomes = 0 :=
  ⟨(driver_idempotent_resume (str "m") (str "MF") (str "t")
      (fun _ => Except.ok (str "d")) [] [[str "- alpha"], [str "- beta"]]
      (fun _ => ⟨str "d", rfl⟩)).1,
   (driver_idempotent_resume (str "m") (str "MF") (str "t")
      (fun _ => Except.ok (str "d")) [] [[str "- alpha"], [str "- beta"]]
      (fun _ => ⟨str "d", rfl⟩)).2.1⟩

lemma processBlocks_length (mf mft mt : List Char)
    (infer : List Char → Except (List Char) (List Char)) :
    ∀ (blocks : List (List (List Char))) (fs : FS),
      (processBlocks mf mft mt infer fs blocks).outcomes.length = blocks.length := by
  intro blocks
  induction blocks with
  | nil => intro fs; rfl
  | cons b rest ih =>
    intro fs
    simp only [processBlocks]
    cases fsLookup fs (blockPath mf b) with
    | some c => simp [ih]
    | none =>
      cases infer (blockPrompt mt b) with
      | error e => simp [ih]
      | ok d => simp [ih]

/-- C3: the resume-aware detail driver produces exactly one outcome per
block, whatever infer does — a failing block never prevents processing
of subsequent blocks; concretely, with three fresh blocks whose second
infer call raises, the outcomes are [Written, Failed, Written]. -/
theorem driver_partial_failure_isolation :
    (∀ (mf mft mt : List Char) (infer : List Char → Except (List Char) (List Char))
       (fs : FS) (blocks : List (List (List Char))),
       (processBlocks mf mft mt infer fs blocks).outcomes.length = blocks.length) ∧
    (processBlocks (str "m") (str "MF") (str "t")
        (fun p => if p = blockPrompt (str "t") [str "- beta"] then
            Except.error (str "boom")
          else Except.ok (str "d"))
        [] [[str "- alpha"], [str "- beta"], [str "- gamma"]]).outcomes =
      [Outcome.written (str "m/alpha.txt"),
       Outcome.failed (str "beta") (str "boom"),
       Outcome.written (str "m/gamma.txt")] :=
  ⟨fun mf mft mt infer fs blocks => processBlocks_length mf mft mt infer blocks fs,
   by decide⟩

/-- C8 counterexample: the main-feature detail stage has no existence
check: with a detail file already present at m/auth/auth.txt holding
"old", running the stage overwrites it with freshly inferred content. -/
theorem main_detail_overwrite_counterexample :
    fsLookup [((str "m/auth/auth.txt"), str "old"),
        ((str "m/main_features.txt"), str "- Auth\n")]
      (str "m/auth/auth.txt") = some (str "old") ∧
    fsLookup (mainDetails (str "m")
        (Except.ok [⟨str "f.txt", str "T", str "tr"⟩]) (str "f.txt")
        (fun _ => Except.ok (str "new"))
        [((str "m/auth/auth.txt"), str "old"),
         ((str "m/main_features.txt"), str "- Auth\n")]).2
      (str "m/auth/auth.txt") = some (mainFeatureContent (str "Auth") (str "new")) ∧
    mainFeatureContent (str "Auth") (str "new") ≠ str "old" :=
  ⟨by decide, by decide, by decide⟩

lemma processBlocks_no_overwrite (mf mft mt : List Char)
    (infer : List Char → Except (List Char) (List Char)) :
    ∀ (blocks : List (List (List Char))) (fs : FS) (p : List Char),
      (fsLookup fs p).isSome = true →
      fsLookup (processBlocks mf mft mt infer fs blocks).fs p = fsLookup fs p := by
  intro blocks
  induction blocks with
  | nil => intro fs p _; rfl
  | cons b rest ih =>
    intro fs p h
    simp only [processBlocks]
    cases hl : fsLookup fs (blockPath mf b) with
    | some c => exact ih fs p h
    | none =>
      cases hi : infer (blockPrompt mt b) with
      | error e => exact ih fs p h
      | ok d =>
        have hne : blockPath mf b ≠ p := by
          intro hx
          rw [hx] at hl
          rw [hl] at h
          exact absurd h (by decide)
        rw [ih _ p (by rw [fsLookup_fsWrite_ne fs _ hne]; exact h)]
        exact fsLookup_fsWrite_ne fs _ hne

/-- C8 amended: sub-feature block detail writing is write-once guarded
by the existence check — the driver never changes the content of a path
that already exists; but main-feature detail writing has no guard: the
per-feature loop writes the derived path unconditionally, overwriting
whatever was there. -/
theorem detail_write_guard :
    (∀ (mf mft mt : List Char) (infer : List Char → Except (List Char) (List Char))
       (fs : FS) (blocks : List (List (List Char))) (p : List Char),
       (fsLookup fs p).isSome = true →
       fsLookup (processBlocks mf mft mt infer fs blocks).fs p = fsLookup fs p) ∧
    (∀ (folder transcript feature d : List Char)
       (infer : List Char → Except (List Char) (List Char)) (fs : FS),
       infer (str "Transcript:\n" ++ transcript ++ str "\n\nMain Feature:\n" ++ feature) =
         Except.ok d →
       fsLookup (mainDetailsLoop folder transcript infer fs [feature]).1
           (folder ++ '/' :: slugify feature ++ '/' :: slugify feature ++ str ".txt") =
         some (mainFeatureContent feature d)) := by
  constructor
  · intro mf mft mt infer fs blocks p h
    exact processBlocks_no_overwrite mf mft mt infer blocks fs p h
  · intro folder transcript feature d infer fs h
    simp only [mainDetailsLoop]
    rw [h]
    exact fsLookup_fsWrite_self fs _ _

theorem detail_write_guard_witness :
    fsLookup (processBlocks (str "m") (str "MF") (str "t")
        (fun _ => Except.ok (str "d"))
        [((str "m/x.txt"), str "keep")] [[str "- alpha"]]).fs
      (str "m/x.txt") = fsLookup [((str "m/x.txt"), str "keep")] (str "m/x.txt") ∧
    fsLookup (mainDetailsLoop (str "m") (str "tr")
        (fun _ => Except.ok (str "new"))
        [((str "m/auth/auth.txt"), str "old")] [str "Auth"]).1
      (str "m" ++ '/' :: slugify (str "Auth") ++ '/' :: slugify (str "Auth") ++
        str ".txt") = some (mainFeatureContent (str "Auth") (str "new")) :=
  ⟨detail_write_guard.1 (str "m") (str "MF") (str "t") (fun _ => Except.ok (str "d"))
     [((str "m/x.txt"), str "keep")] [[str "- alpha"]] (str "m/x.txt") (by decide),
   detail_write_guard.2 (str "m") (str "tr") (str "Auth") (str "new")
     (fun _ => Except.ok (str "new")) [((str "m/auth/auth.txt"), str "old")] rfl⟩

/-- C9 counterexample: generate_meeting_summary catches only
FileNotFoundError and JSONDecodeError; an exception raised by the
inference call is not caught and propagates to the caller instead of
being returned as an ERROR string. -/
theorem summary_exception_propagates :
    genSummary (Except.ok [⟨str "f.txt", str "Demo", str "hello"⟩]) (str "Demo")
      (fun _ => Except.error (str "boom")) [] = Except.error (str "boom") := by
  decide

/-- C9 amended: the extraction and detail stage functions wrap their
bodies in a catch-all and always return a string: a missing upstream
artifact yields a descriptive DEBUG result string, and an internal
exception (a failed database read, or the parser's KeyError) is
surfaced as an ERROR-prefixed result string; but the summary stage (and
the save stage) catch only specific exceptions, so an inference
exception there propagates (see the counterexample). -/
theorem stage_error_reporting :
    (∀ (folder : List Char) (infer : List Char → Except (List Char) (List Char))
       (fs : FS),
       fsLookup fs (folder ++ str "/sub_features.txt") = none →
       (subDetails folder infer fs).1 =
         str "[DEBUG] No sub_features.txt found in " ++ folder) ∧
    (∀ (folder : List Char)
       (infer : List Char → Except (List Char) (List (List Char))) (fs : FS),
       fsLookup fs (folder ++ str "/main_features.txt") = none →
       (subExtract folder infer fs).1 =
         str "[DEBUG] No main_features.txt found in " ++ folder) ∧
    (∀ (folder e filePath : List Char)
       (infer : List Char → Except (List Char) (List Char)) (fs : FS),
       (mainDetails folder (Except.error e) filePath infer fs).1 =
         str "[ERROR] " ++ e) ∧
    (∀ (folder content e : List Char)
       (infer : List Char → Except (List Char) (List Char)) (fs : FS),
       fsLookup fs (folder ++ str "/sub_features.txt") = some content →
       parse content = Except.error e →
       (subDetails folder infer fs).1 = str "[ERROR] " ++ e) := by
  refine ⟨?_, ?_, ?_, ?_⟩
  · intro folder infer fs h
    unfold subDetails
    rw [h]
  · intro folder infer fs h
    unfold subExtract
    rw [h]
  · intro folder e filePath infer fs
    rfl
  · intro folder content e infer fs h1 h2
    unfold subDetails
    rw [h1]
    dsimp only
    rw [h2]

theorem stage_error_reporting_witness :
    (subDetails (str "m") (fun _ => Except.ok []) []).1 =
      str "[DEBUG] No sub_features.txt found in " ++ str "m" ∧
    (subExtract (str "m") (fun _ => Except.ok []) []).1 =
      str "[DEBUG] No main_features.txt found in " ++ str "m" ∧
    (mainDetails (str "m") (Except.error (str "io fail")) (str "f")
        (fun _ => Except.ok []) []).1 = str "[ERROR] " ++ str "io fail" ∧
    (subDetails (str "m") (fun _ => Except.ok [])
        [((str "m/sub_features.txt"), str "- orphan\n")]).1 =
      str "[ERROR] " ++ str "None" :=
  ⟨stage_error_reporting.1 (str "m") (fun _ => Except.ok []) [] rfl,
   stage_error_reporting.2.1 (str "m") (fun _ => Except.ok []) [] rfl,
   stage_error_reporting.2.2.1 (str "m") (str "io fail") (str "f")
     (fun _ => Except.ok []) [],
   stage_error_reporting.2.2.2 (str "m") (str "- orphan\n") (str "None")
     (fun _ => Except.ok []) [((str "m/sub_features.txt"), str "- orphan\n")]
     (by decide) (by decide)⟩

/-- C10: in the sub-feature extraction stage a main feature is treated
as completed and skipped iff its title occurs as a substring of the
existing sub_features.txt content (a non-skipped feature whose
transcript file exists always invokes infer); consequently, on the
concrete store where only "Authentication" was extracted, the distinct
feature "Auth" — a substring of "Authentication" — is skipped and never
extracted: the stage makes zero infer calls and leaves the filesystem
unchanged. -/
theorem sub_extract_substring_skip :
    (∀ (folder content : List Char)
       (infer : List Char → Except (List Char) (List (List Char))) (fs : FS)
       (idx : Nat) (feature : List Char) (rest : List (List Char)),
       strContains feature content = true →
       subExtractLoop folder content infer fs idx (feature :: rest) =
         subExtractLoop folder content infer fs (idx + 1) rest) ∧
    (∀ (folder content : List Char)
       (infer : List Char → Except (List Char) (List (List Char))) (fs : FS)
       (idx : Nat) (feature ftext : List Char) (rest : List (List Char)),
       strContains feature content = false →
       fsLookup fs (featurePath folder feature) = some ftext →
       1 ≤ (subExtractLoop folder content infer fs idx (feature :: rest)).2.1) ∧
    subExtract (str "m") (fun _ => Except.ok [str "- x"])
        [((str "m/main_features.txt"), str "- Authentication\n- Auth\n"),
         ((str "m/sub_features.txt"),
          str "Extracted Hierarchical Features:\n\n1) Authentication\n- login\n\n"),
         ((str "m/auth/auth.txt"), str "auth transcript")] =
      ((str "Hierarchical sub-features extracted and saved in " ++
          str "m/sub_features.txt"),
       [((str "m/main_features.txt"), str "- Authentication\n- Auth\n"),
        ((str "m/sub_features.txt"),
         str "Extracted Hierarchical Features:\n\n1) Authentication\n- login\n\n"),
        ((str "m/auth/auth.txt"), str "auth transcript")], 0) := by
  refine ⟨?_, ?_, by decide⟩
  · intro folder content infer fs idx feature rest h
    conv_lhs => unfold subExtractLoop
    rw [if_pos h]
  · intro folder content infer fs idx feature ftext rest h1 h2
    unfold subExtractLoop
    rw [if_neg (by rw [h1]; exact Bool.false_ne_true), h2]
    dsimp only
    cases infer (subExtractPrompt ftext idx feature) with
    | error e => exact Nat.le_refl 1
    | ok feats => exact Nat.succ_le_succ (Nat.zero_le _)

theorem sub_extract_substring_skip_witness :
    subExtractLoop (str "m") (str "xAy") (fun _ => Except.ok []) [] 1 [str "A"] =
      subExtractLoop (str "m") (str "xAy") (fun _ => Except.ok []) [] 2 [] ∧
    1 ≤ (subExtractLoop (str "m") (str "zz") (fun _ => Except.ok [])
        [((featurePath (str "m") (str "A")), str "t")] 1 [str "A"]).2.1 :=
  ⟨sub_extract_substring_skip.1 (str "m") (str "xAy") (fun _ => Except.ok []) [] 1
     (str "A") [] (by decide),
   sub_extract_substring_skip.2.1 (str "m") (str "zz") (fun _ => Except.ok [])
     [((featurePath (str "m") (str "A")), str "t")] 1 (str "A") (str "t") []
     (by decide) (by decide)⟩

end MeetingSummarizer
